import Mathlib

/-!
# Verification of the db-wrap SQL synthesis and row-mapping engine

A shallow embedding of the schema-reflection-driven SQL synthesis and
row-mapping engine of `db_wrap` (the C++ headers under `include/db_wrap`).

Modelling conventions:
* a record type (a C++ aggregate with a static `kName` member) is modelled by
  a `Schema`: the table name plus the declaration-ordered list of field names
  (what `boost::pfr::names_as_array` reflects);
* a record value is modelled by the list of its field values in declaration
  order (what `boost::pfr::get<0..n-1>` enumerates);
* machine integers (`std::int32_t`, `std::size_t`) are modelled by `Nat`/`Int`;
  all quantities reached here (field counts, parameter indices) are tiny, far
  from any overflow boundary;
* the `pqxx` driver is modelled by an abstract function from statement text to
  a list of result rows; a result row is a list of (column name, value) pairs.
-/

namespace DbWrap

/-! ## `details/string_utils.hpp` — `db::utils::itoa_d` -/

/-- The digit-to-character computation inside `db::utils::itoa_d`:
`(rem > 9) ? (rem - 10) + 'a' : rem + '0'`. -/
def itoaDigitChar (rem : Nat) : Char :=
  if rem > 9 then Char.ofNat (rem - 10 + 'a'.toNat) else Char.ofNat (rem + '0'.toNat)

/-- The digit-extraction loop of `db::utils::itoa_d`:
`for (num = in_num; num != 0; num /= 10) out[i++] = digit(num % 10);`
producing digits least-significant first (the C++ code then reverses the
buffer in place). -/
def itoaLoop (n : Nat) : List Char :=
  if h : n = 0 then []
  else itoaDigitChar (n % 10) :: itoaLoop (n / 10)
decreasing_by exact Nat.div_lt_self (Nat.pos_of_ne_zero h) (by norm_num)

/-- `db::utils::itoa_d`: converts a 32-bit integer to a base-10 string.
Inputs `≤ 0` produce `"0"` (the guard at the top of the function); positive
inputs produce the digit loop's output reversed (most significant digit
first). -/
def itoa_d (n : Int) : String :=
  if n ≤ 0 then "0" else String.mk (itoaLoop n.toNat).reverse

theorem itoaDigitChar_eq_digitChar (r : Nat) (h : r < 10) :
    itoaDigitChar r = Nat.digitChar r := by
  interval_cases r <;> decide

theorem toDigitsCore_eq_itoaLoop (fuel : Nat) :
    ∀ (n : Nat) (ds : List Char), 0 < n → n ≤ fuel →
      Nat.toDigitsCore 10 fuel n ds = (itoaLoop n).reverse ++ ds := by
  induction fuel with
  | zero => intro n ds hn hf; omega
  | succ f ih =>
    intro n ds hn hf
    rw [itoaLoop, dif_neg (Nat.pos_iff_ne_zero.mp hn), Nat.toDigitsCore,
      itoaDigitChar_eq_digitChar _ (Nat.mod_lt _ (by norm_num))]
    by_cases hdiv : n / 10 = 0
    · rw [if_pos hdiv, hdiv, itoaLoop]
      simp
    · rw [if_neg hdiv]
      have hlt : n / 10 < n := Nat.div_lt_self hn (by norm_num)
      rw [ih (n / 10) _ (Nat.pos_of_ne_zero hdiv) (by omega)]
      simp

/-- C10: for every integer input `n` (in particular every 32-bit integer),
`itoa_d` produces `"0"` whenever `n ≤ 0` — never a minus sign — and the
standard base-10 decimal representation (`Nat.repr`: no leading zeros, most
significant digit first) whenever `n ≥ 1`. -/
theorem itoa_d_spec (n : Int) :
    itoa_d n = if n ≤ 0 then "0" else Nat.repr n.toNat := by
  unfold itoa_d
  split
  · rfl
  · rename_i h
    have hn : 0 < n.toNat := by omega
    rw [Nat.repr, Nat.toDigits,
      toDigitsCore_eq_itoaLoop _ _ _ hn (Nat.le_succ _)]
    simp [List.asString]

/-- Helper: on positive naturals, `itoa_d` agrees with `Nat.repr`. -/
theorem itoa_d_coe (k : Nat) (hk : 0 < k) : itoa_d (k : Int) = Nat.repr k := by
  rw [itoa_d_spec]
  have : ¬ ((k : Int) ≤ 0) := by exact_mod_cast Nat.not_le.mpr hk
  simp [this]

/-! ## The schema model (`boost::pfr` reflection, `details/pfr_utils.hpp`) -/

/-- A record-type description: the static `kName` table name together with the
declaration-ordered field names reflected by
`db::utils::get_struct_names` (`boost::pfr::names_as_array`). -/
structure Schema where
  kName : String
  fields : List String

/-! ## `details/sql_impl.hpp` — `db::sql::details::validate_fields` -/

/-- `db::sql::details::validate_fields`: `std::ranges::all_of` over the
requested names, each checked for membership (`std::ranges::find`) in the
scheme's reflected field names. -/
def validate_fields (requested : List String) (s : Schema) : Bool :=
  requested.all (fun f => s.fields.contains f)

/-- C8: `validate_fields` returns `true` iff every requested name is among the
scheme's declared field names; in particular it returns `true` for an empty
request (vacuous truth). -/
theorem validate_fields_spec (requested : List String) (s : Schema) :
    (validate_fields requested s = true ↔ ∀ f ∈ requested, f ∈ s.fields)
      ∧ validate_fields [] s = true := by
  refine ⟨?_, rfl⟩
  simp [validate_fields]

/-! ## `details/sql_impl.hpp` — query synthesis -/

/-- `db::sql::details::interpret_name`: appends
`"{name} = ${i+2}"` plus a `", "` separator unless this is the last of the
`size` processed fields; the caller then increments `i`. -/
def interpret_name (name : String) (i size : Nat) : String :=
  name ++ " = $" ++ itoa_d ((i : Int) + 2) ++ (if i + 1 < size then ", " else "")

/-- The fold expansion `(interpret_name(Fields, i, size, dest), ...)` of
`db::sql::details::update_query_str`: process each requested field in the
given order, threading the incremented index `i`. -/
def setClause : List String → Nat → Nat → String
  | [], _, _ => ""
  | f :: fs, i, size => interpret_name f i size ++ setClause fs (i + 1) size

/-- `db::sql::details::update_query_str`: `"UPDATE {kName} SET "`, then the
SET clause over the requested fields (with `size = sizeof...(Fields)`),
then `" WHERE id = $1;"`. -/
def update_query_str (s : Schema) (requested : List String) : String :=
  "UPDATE " ++ s.kName ++ " SET " ++ setClause requested 0 requested.length
    ++ " WHERE id = $1;"

/-- The loop of `db::sql::details::update_query_all_str`: iterate the
reflected fields in declaration order, `continue` on every field named
`"id"`, otherwise `interpret_name` with the shared index `i`. -/
def setClauseSkipId : List String → Nat → Nat → String
  | [], _, _ => ""
  | f :: fs, i, size =>
    if f = "id" then setClauseSkipId fs i size
    else interpret_name f i size ++ setClauseSkipId fs (i + 1) size

/-- The `names_size` lambda of `update_query_all_str`: the reflected field
count, minus one when a field `"id"` is found. -/
def namesSizeAll (s : Schema) : Nat :=
  if "id" ∈ s.fields then s.fields.length - 1 else s.fields.length

/-- `db::sql::details::update_query_all_str`. -/
def update_query_all_str (s : Schema) : String :=
  "UPDATE " ++ s.kName ++ " SET " ++ setClauseSkipId s.fields 0 (namesSizeAll s)
    ++ " WHERE id = $1;"

/-- The column-list loop of `db::sql::details::insert_query_all_str`. -/
def insertCols : List String → Nat → Nat → String
  | [], _, _ => ""
  | f :: fs, i, size =>
    f ++ (if i + 1 < size then ", " else "") ++ insertCols fs (i + 1) size

/-- The placeholder loop of `db::sql::details::insert_query_all_str`:
for each `field_idx` of `iota(0, names_size)`, `"$" ++ itoa_d (field_idx + 1)`
plus a separator unless last. -/
def insertParams : List Nat → Nat → String
  | [], _ => ""
  | k :: ks, size =>
    "$" ++ itoa_d ((k : Int) + 1) ++ (if k + 1 < size then ", " else "")
      ++ insertParams ks size

/-- `db::sql::details::insert_query_all_str`. -/
def insert_query_all_str (s : Schema) : String :=
  "INSERT INTO " ++ s.kName ++ " (" ++ insertCols s.fields 0 s.fields.length
    ++ ") VALUES" ++ " (" ++ insertParams (List.range s.fields.length) s.fields.length
    ++ ");"

/-! ## Specification-side text shapes -/

/-- The exact `", "`-separated join of a list of texts, with no trailing
separator (the spec's formatting contract). -/
def joinComma : List String → String
  | [] => ""
  | [x] => x
  | x :: y :: rest => x ++ ", " ++ joinComma (y :: rest)

/-- The SET-clause assignment texts `"{name} = ${k+2}"` for the given names
in their given order, the first one using parameter index `i + 2`. -/
def assigns : List String → Nat → List String
  | [], _ => []
  | n :: ns, i => (n ++ " = $" ++ Nat.repr (i + 2)) :: assigns ns (i + 1)

theorem assigns_length (ns : List String) : ∀ i, (assigns ns i).length = ns.length := by
  induction ns with
  | nil => intro i; rfl
  | cons n ns ih => intro i; simpa [assigns] using ih (i + 1)

theorem itoa_d_add_two (i : Nat) : itoa_d ((i : Int) + 2) = Nat.repr (i + 2) := by
  have h : ((i : Int) + 2) = ((i + 2 : Nat) : Int) := by push_cast; ring
  rw [h, itoa_d_coe _ (by omega)]

theorem setClause_eq_joinComma (fs : List String) :
    ∀ i size, i + fs.length = size →
      setClause fs i size = joinComma (assigns fs i) := by
  induction fs with
  | nil => intro i size _; rfl
  | cons f fs ih =>
    intro i size h
    cases fs with
    | nil =>
      have hlt : ¬ (i + 1 < size) := by simp at h; omega
      simp only [setClause, interpret_name, assigns, joinComma, if_neg hlt,
        itoa_d_add_two]
      apply String.ext
      simp
    | cons g gs =>
      have hlt : i + 1 < size := by simp at h ⊢; omega
      rw [setClause, interpret_name, ih (i + 1) size (by simp at h ⊢; omega)]
      show _ = joinComma (_ :: _ :: _)
      rw [joinComma]
      simp only [if_pos hlt, itoa_d_add_two, assigns]

/-- C2: for every schema `S` with table name `T` and every validated,
non-empty subset `F` of its field names, the generated update-fields
statement is exactly `"UPDATE T SET n1 = $2, n2 = $3, … WHERE id = $1;"`:
`|F|` assignments in `F`'s given order (`assigns F 0` numbers them
`2, 3, …` in that order), joined by exactly `", "` with no trailing
separator. -/
theorem update_fields_query_spec (s : Schema) (F : List String)
    (_hne : F ≠ []) (_hval : validate_fields F s = true) :
    update_query_str s F =
        "UPDATE " ++ s.kName ++ " SET " ++ joinComma (assigns F 0)
          ++ " WHERE id = $1;"
      ∧ (assigns F 0).length = F.length := by
  refine ⟨?_, assigns_length F 0⟩
  rw [update_query_str, setClause_eq_joinComma F 0 F.length (by omega)]

theorem update_fields_query_spec_witness :
    ((["email"] : List String) ≠ []
      ∧ validate_fields ["email"] ⟨"users", ["id", "name", "email"]⟩ = true)
      ∧ (update_query_str ⟨"users", ["id", "name", "email"]⟩ ["email"] =
            "UPDATE " ++ "users" ++ " SET " ++ joinComma (assigns ["email"] 0)
              ++ " WHERE id = $1;"
          ∧ (assigns ["email"] 0).length = (["email"] : List String).length) :=
  ⟨⟨by decide, by decide⟩,
    update_fields_query_spec ⟨"users", ["id", "name", "email"]⟩ ["email"]
      (by decide) (by decide)⟩

theorem setClauseSkipId_eq_filter (fs : List String) :
    ∀ i size, setClauseSkipId fs i size
      = setClause (fs.filter (fun f => f ≠ "id")) i size := by
  induction fs with
  | nil => intro i size; rfl
  | cons f fs ih =>
    intro i size
    by_cases hf : f = "id"
    · subst hf
      rw [setClauseSkipId, if_pos rfl, ih]
      simp
    · rw [setClauseSkipId, if_neg hf, ih]
      rw [List.filter_cons_of_pos (by simp [hf])]
      rfl

theorem filter_ne_id_length (l : List String) (hnd : l.Nodup) :
    (l.filter (fun f => f ≠ "id")).length
      = if "id" ∈ l then l.length - 1 else l.length := by
  induction l with
  | nil => rfl
  | cons a l ih =>
    rw [List.nodup_cons] at hnd
    obtain ⟨hna, hnd⟩ := hnd
    by_cases ha : a = "id"
    · subst ha
      rw [List.filter_cons_of_neg (by simp)]
      rw [ih hnd, if_neg hna, if_pos (List.mem_cons_self _ _)]
      simp
    · rw [List.filter_cons_of_pos (by simp [ha])]
      simp only [List.length_cons, ih hnd]
      by_cases hmem : "id" ∈ l
      · have : 0 < l.length := List.length_pos.mpr (by
          rintro rfl; exact absurd hmem (List.not_mem_nil _))
        rw [if_pos hmem, if_pos (List.mem_cons_of_mem _ hmem)]
        omega
      · rw [if_neg hmem, if_neg (by simp [ha, hmem, Ne.symm])]
  -- `a ≠ "id"` and `"id" ∉ l` together rule out membership in `a :: l`

theorem namesSizeAll_eq_filter_length (s : Schema) (hnd : s.fields.Nodup) :
    namesSizeAll s = (s.fields.filter (fun f => f ≠ "id")).length := by
  rw [namesSizeAll, filter_ne_id_length s.fields hnd]

/-- C3: for every schema whose reflected field names are distinct (as C++
struct members always are), the generated update-all statement's SET clause
lists exactly the declared fields with the `"id"` occurrence removed, in
declaration order, numbered from `$2` (`assigns … 0`), and the statement ends
`" WHERE id = $1;"`; the assignment count is the field count minus one
exactly when a field `"id"` is present. -/
theorem update_all_query_spec (s : Schema) (hnd : s.fields.Nodup) :
    update_query_all_str s =
        "UPDATE " ++ s.kName ++ " SET "
          ++ joinComma (assigns (s.fields.filter (fun f => f ≠ "id")) 0)
          ++ " WHERE id = $1;"
      ∧ (s.fields.filter (fun f => f ≠ "id")).length
          = s.fields.length - (if "id" ∈ s.fields then 1 else 0) := by
  constructor
  · rw [update_query_all_str, setClauseSkipId_eq_filter,
      namesSizeAll_eq_filter_length s hnd,
      setClause_eq_joinComma _ 0 _ (by omega)]
  · rw [filter_ne_id_length s.fields hnd]
    by_cases hmem : "id" ∈ s.fields <;> simp [hmem]

theorem update_all_query_spec_witness :
    (["id", "name", "email"] : List String).Nodup
      ∧ (update_query_all_str ⟨"users", ["id", "name", "email"]⟩ =
            "UPDATE " ++ "users" ++ " SET "
              ++ joinComma (assigns ((["id", "name", "email"] : List String).filter
                    (fun f => f ≠ "id")) 0)
              ++ " WHERE id = $1;"
          ∧ ((["id", "name", "email"] : List String).filter
                (fun f => f ≠ "id")).length
              = (["id", "name", "email"] : List String).length
                  - (if "id" ∈ (["id", "name", "email"] : List String) then 1 else 0)) :=
  ⟨by decide, update_all_query_spec ⟨"users", ["id", "name", "email"]⟩ (by decide)⟩

/-- C7: synthesizing update-fields with an empty requested list, or update-all
on a schema whose only field is `"id"`, succeeds with no guard and emits a
statement whose SET clause has zero assignments — the syntactically invalid
text `"UPDATE {table} SET  WHERE id = $1;"` (two spaces). -/
theorem empty_set_clause_spec (s : Schema) :
    update_query_str s [] = "UPDATE " ++ s.kName ++ " SET  WHERE id = $1;"
      ∧ update_query_all_str ⟨s.kName, ["id"]⟩
          = "UPDATE " ++ s.kName ++ " SET  WHERE id = $1;" := by
  constructor
  · rw [update_query_str, setClause, String.append_empty, String.append_assoc]
    rfl
  · rw [update_query_all_str]
    show "UPDATE " ++ s.kName ++ " SET " ++ setClauseSkipId ["id"] 0 _
        ++ " WHERE id = $1;" = _
    rw [setClauseSkipId, if_pos rfl, setClauseSkipId, String.append_empty,
      String.append_assoc]
    rfl

/-- The placeholder texts `"$1", "$2", …, "$n"` of an insert-all statement:
entry `k` (0-based) is `"$" ++ repr (k+1)`, so placeholder `$i` corresponds
one-to-one to the `i`-th column. -/
def placeholders (n : Nat) : List String :=
  (List.range n).map (fun k => "$" ++ Nat.repr (k + 1))

theorem itoa_d_add_one (k : Nat) : itoa_d ((k : Int) + 1) = Nat.repr (k + 1) := by
  have h : ((k : Int) + 1) = ((k + 1 : Nat) : Int) := by push_cast; ring
  rw [h, itoa_d_coe _ (by omega)]

theorem insertCols_eq_joinComma (fs : List String) :
    ∀ i size, i + fs.length = size → insertCols fs i size = joinComma fs := by
  induction fs with
  | nil => intro i size _; rfl
  | cons f fs ih =>
    intro i size h
    cases fs with
    | nil =>
      have hlt : ¬ (i + 1 < size) := by simp at h; omega
      simp [insertCols, joinComma, if_neg hlt]
    | cons g gs =>
      have hlt : i + 1 < size := by simp at h ⊢; omega
      rw [insertCols, ih (i + 1) size (by simp at h ⊢; omega)]
      show _ = joinComma (_ :: _ :: _)
      rw [joinComma]
      simp only [if_pos hlt]

theorem insertParams_range' (b : Nat) :
    ∀ a size, a + b = size →
      insertParams (List.range' a b) size
        = joinComma ((List.range' a b).map (fun k => "$" ++ Nat.repr (k + 1))) := by
  induction b with
  | zero => intro a size _; rfl
  | succ b ih =>
    intro a size h
    rw [List.range'_succ]
    cases b with
    | zero =>
      have hlt : ¬ (a + 1 < size) := by omega
      simp [insertParams, joinComma, if_neg hlt, itoa_d_add_one]
    | succ b =>
      have hlt : a + 1 < size := by omega
      rw [insertParams, ih (a + 1) size (by omega), List.range'_succ]
      show _ = joinComma (_ :: _ :: _)
      rw [joinComma]
      simp only [if_pos hlt, itoa_d_add_one, List.map_cons]

/-- C4: for every schema with table name `T` and fields `f1 … fn` in
declaration order, the generated insert-all statement is exactly
`"INSERT INTO T (f1, f2, …) VALUES ($1, $2, …);"`: the column list is the
declaration-ordered field list, the placeholder list is
`placeholders n = ["$1", …, "$n"]` (entry `k` is `"$(k+1)"`, so placeholder
`$i` corresponds one-to-one to column `fi`), and both lists have length `n`.
-/
theorem insert_all_query_spec (s : Schema) :
    insert_query_all_str s =
        "INSERT INTO " ++ s.kName ++ " (" ++ joinComma s.fields ++ ") VALUES ("
          ++ joinComma (placeholders s.fields.length) ++ ");"
      ∧ (placeholders s.fields.length).length = s.fields.length := by
  constructor
  · rw [insert_query_all_str, insertCols_eq_joinComma s.fields 0 _ (by omega),
      List.range_eq_range', insertParams_range' _ 0 _ (by omega), placeholders,
      List.range_eq_range']
    apply String.ext
    simp
  · rw [placeholders]
    simp

/-! ## `details/static_string.hpp` and the two-pass protocol of
`db::sql::utils::create_update_query` (`sql_utils.hpp`) -/

/-- `db::details::static_string<N>`: a fixed-capacity character buffer
holding `len` written characters.  We record the written prefix; the
capacity `N` is tracked separately by the theorems (the unwritten tail of
the C++ array is zero-initialised and never read through `size()`). -/
structure static_string where
  len : Nat
  chars : List Char

/-- `static_string::operator+=`: `std::copy_n` the appended text at offset
`len`, then grow `len`.  The source performs no capacity check (its
`assert(str.size() + len < N)` is commented out); exceeding the capacity is
undefined behaviour, which the two-pass theorems below prove unreachable. -/
def sAppend (b : static_string) (s : String) : static_string :=
  ⟨b.len + s.length, b.chars ++ s.data⟩

/-- The append trace of `update_query_str`: one entry per `dest +=` executed
by `update_query_str` / `interpret_name`, in execution order. -/
def interpretPieces (name : String) (i size : Nat) : List String :=
  [name, " = $", itoa_d ((i : Int) + 2)] ++ (if i + 1 < size then [", "] else [])

def setPieces : List String → Nat → Nat → List String
  | [], _, _ => []
  | f :: fs, i, size => interpretPieces f i size ++ setPieces fs (i + 1) size

def updatePieces (s : Schema) (requested : List String) : List String :=
  ["UPDATE ", s.kName, " SET "] ++ setPieces requested 0 requested.length
    ++ [" WHERE id = $1;"]

/-- The measuring pass of `create_update_query`: assemble into a throwaway
growable `std::string`, then take `res.size() + 1` (room for the null
terminator) as the `static_string` capacity. -/
def measuredCapacity (s : Schema) (requested : List String) : Nat :=
  (update_query_str s requested).length + 1

/-- The filling pass of `create_update_query`: replay the same appends into
the zero-initialised fixed-capacity buffer. -/
def fillPass (ps : List String) : static_string :=
  ps.foldl sAppend ⟨0, []⟩

/-- `db::sql::utils::create_update_query`: the text held by the buffer the
filling pass produced. -/
def create_update_query (s : Schema) (requested : List String) : String :=
  String.mk (fillPass (updatePieces s requested)).chars

/-- Concatenation of an append trace (what the growable `std::string` of the
measuring pass accumulates). -/
def concatString : List String → String
  | [] => ""
  | p :: ps => p ++ concatString ps

theorem concatString_append (a b : List String) :
    concatString (a ++ b) = concatString a ++ concatString b := by
  induction a with
  | nil => simp [concatString]
  | cons p a ih =>
    show p ++ concatString (a ++ b) = p ++ concatString a ++ concatString b
    rw [ih, String.append_assoc]

theorem interpretPieces_concat (f : String) (i size : Nat) :
    concatString (interpretPieces f i size) = interpret_name f i size := by
  rw [interpretPieces, interpret_name]
  by_cases hlt : i + 1 < size <;>
    · simp only [if_pos, if_neg, hlt, ite_true, ite_false]
      simp only [concatString, List.append_nil, List.cons_append]
      apply String.ext
      simp

theorem setPieces_concat (fs : List String) :
    ∀ i size, concatString (setPieces fs i size) = setClause fs i size := by
  induction fs with
  | nil => intro i size; rfl
  | cons f fs ih =>
    intro i size
    rw [setPieces, setClause, concatString_append, interpretPieces_concat, ih]

theorem updatePieces_concat (s : Schema) (requested : List String) :
    concatString (updatePieces s requested) = update_query_str s requested := by
  rw [updatePieces, update_query_str, concatString_append, concatString_append,
    setPieces_concat]
  simp only [concatString]
  apply String.ext
  simp

theorem fillPass_go (ps : List String) :
    ∀ init : static_string,
      ps.foldl sAppend init
        = ⟨init.len + (concatString ps).length, init.chars ++ (concatString ps).data⟩ := by
  induction ps with
  | nil => intro init; simp [concatString]
  | cons p ps ih =>
    intro init
    rw [List.foldl_cons, ih]
    simp [sAppend, concatString]
    omega

theorem fillPass_spec (ps : List String) :
    (fillPass ps).len = (concatString ps).length
      ∧ (fillPass ps).chars = (concatString ps).data := by
  rw [fillPass, fillPass_go]
  simp

theorem concatString_take_le (ps : List String) :
    ∀ k, k < ps.length →
      (concatString (ps.take k)).length + (ps.getD k "").length
        ≤ (concatString ps).length := by
  induction ps with
  | nil => intro k hk; simp at hk
  | cons p ps ih =>
    intro k hk
    cases k with
    | zero => simp [concatString]
    | succ k =>
      have := ih k (by simpa using hk)
      simp only [List.take_succ_cons, concatString, List.getD_cons_succ,
        String.length_append]
      omega

/-- C5: the two-pass construction of `create_update_query` is exact.  For
every scheme and field-name pack, the filling pass into the fixed-capacity
`static_string` produces the very text the measuring pass assembled
(`update_query_str`), the final length is the measured capacity minus one
(the null terminator's slot), and every single append stays strictly below
the capacity — the capacity-exceeded condition of `operator+=` is
unreachable. -/
theorem create_update_query_two_pass (s : Schema) (F : List String)
    (k : Nat) (hk : k < (updatePieces s F).length) :
    create_update_query s F = update_query_str s F
      ∧ (fillPass (updatePieces s F)).len = measuredCapacity s F - 1
      ∧ (fillPass ((updatePieces s F).take k)).len
          + ((updatePieces s F).getD k "").length < measuredCapacity s F := by
  obtain ⟨hlen, hchars⟩ := fillPass_spec (updatePieces s F)
  obtain ⟨hlen', _⟩ := fillPass_spec ((updatePieces s F).take k)
  refine ⟨?_, ?_, ?_⟩
  · rw [create_update_query, hchars, updatePieces_concat]
  · rw [hlen, updatePieces_concat, measuredCapacity]
    omega
  · rw [hlen', measuredCapacity]
    have h := concatString_take_le (updatePieces s F) k hk
    rw [updatePieces_concat] at h
    omega

theorem create_update_query_two_pass_witness :
    0 < (updatePieces ⟨"users", ["id", "name", "email"]⟩ ["email"]).length
      ∧ (create_update_query ⟨"users", ["id", "name", "email"]⟩ ["email"]
            = update_query_str ⟨"users", ["id", "name", "email"]⟩ ["email"]
          ∧ (fillPass (updatePieces ⟨"users", ["id", "name", "email"]⟩ ["email"])).len
              = measuredCapacity ⟨"users", ["id", "name", "email"]⟩ ["email"] - 1
          ∧ (fillPass ((updatePieces ⟨"users", ["id", "name", "email"]⟩ ["email"]).take 0)).len
              + ((updatePieces ⟨"users", ["id", "name", "email"]⟩ ["email"]).getD 0 "").length
              < measuredCapacity ⟨"users", ["id", "name", "email"]⟩ ["email"]) :=
  ⟨by decide,
    create_update_query_two_pass ⟨"users", ["id", "name", "email"]⟩ ["email"] 0 (by decide)⟩

/-! ## `db_utils.hpp` — row mapping (`from_row`, `from_columns`) -/

/-- A `pqxx::row`: the ordered result columns, each a (column name, raw
value) pair; `α` is the raw wire-value type. -/
abbrev Row (α : Type) := List (String × α)

/-- `pqxx::row::operator[](zview)`: locate a column by exact, case-sensitive
name (the first match); absent column modelled by `none`. -/
def lookupCol {α : Type} (row : Row α) (name : String) : Option α :=
  (row.find? (fun c => c.1 = name)).map Prod.snd

/-- The field loop of `db::utils::from_row`
(`boost::pfr::for_each_field_with_name`): the field with index `j` and name
`f` takes the named column's value converted by that field's
`as<FieldType>` (`conv j`); a missing column or failed conversion raises,
modelled by `none`. -/
def from_row_go {α β : Type} (conv : Nat → α → Option β) (row : Row α) :
    List String → Nat → Option (List β)
  | [], _ => some []
  | f :: fs, j => do
      let v ← lookupCol row f
      let b ← conv j v
      let rest ← from_row_go conv row fs (j + 1)
      pure (b :: rest)

/-- `db::utils::from_row`: named row mapping over the record's declared
fields, in declaration order. -/
def from_row {α β : Type} (fields : List String) (conv : Nat → α → Option β)
    (row : Row α) : Option (List β) :=
  from_row_go conv row fields 0

/-- The field loop of `db::utils::from_columns`
(`boost::pfr::for_each_field` with index): the field with index `j` takes
`row[j]`'s value, strictly by position; an out-of-range index raises. -/
def from_columns_go {α β : Type} (conv : Nat → α → Option β) (row : Row α) :
    List String → Nat → Option (List β)
  | [], _ => some []
  | _ :: fs, j => do
      let c ← row[j]?
      let b ← conv j c.2
      let rest ← from_columns_go conv row fs (j + 1)
      pure (b :: rest)

/-- `db::utils::from_columns`: positional row mapping. -/
def from_columns {α β : Type} (fields : List String) (conv : Nat → α → Option β)
    (row : Row α) : Option (List β) :=
  from_columns_go conv row fields 0

theorem lookupCol_of_aligned {α : Type} (row : Row α) (fields : List String)
    (hmap : row.map Prod.fst = fields) (hnd : fields.Nodup) :
    ∀ (j : Nat) (f : String), fields[j]? = some f →
      lookupCol row f = (row[j]?).map Prod.snd := by
  induction row generalizing fields with
  | nil =>
    intro j f hj
    subst hmap
    simp at hj
  | cons c row ih =>
    intro j f hj
    subst hmap
    simp only [List.map_cons, List.nodup_cons] at hnd
    obtain ⟨hna, hnd⟩ := hnd
    cases j with
    | zero =>
      simp only [List.map_cons, List.getElem?_cons_zero, Option.some.injEq] at hj
      subst hj
      rw [lookupCol, List.find?_cons_of_pos _ (by simp)]
      simp
    | succ j =>
      simp only [List.map_cons, List.getElem?_cons_succ] at hj
      have hfmem : f ∈ row.map Prod.fst := List.getElem?_mem hj
      have hne : ¬ (c.1 = f) := fun h => hna (h ▸ hfmem)
      rw [lookupCol, List.find?_cons_of_neg _ (by simpa using hne)]
      rw [List.getElem?_cons_succ]
      exact ih (row.map Prod.fst) rfl hnd j f hj

theorem from_row_go_eq_from_columns_go {α β : Type} (conv : Nat → α → Option β)
    (row : Row α) (fields : List String)
    (hmap : row.map Prod.fst = fields) (hnd : fields.Nodup) :
    ∀ fs j, fs = fields.drop j →
      from_row_go conv row fs j = from_columns_go conv row fs j := by
  intro fs
  induction fs with
  | nil => intro j _; rfl
  | cons f fs ih =>
    intro j hdrop
    have hj : fields[j]? = some f := by
      have h0 : (fields.drop j)[0]? = some f := by rw [← hdrop]; simp
      rwa [List.getElem?_drop, Nat.add_zero] at h0
    have htail : fs = fields.drop (j + 1) := by
      have h1 : (fields.drop j).drop 1 = fs := by rw [← hdrop]; rfl
      rw [List.drop_drop] at h1
      exact h1.symm
    rw [from_row_go, from_columns_go,
      lookupCol_of_aligned row fields hmap hnd j f hj, ih (j + 1) htail]
    cases row[j]? <;> rfl

/-- C9: for every result row and record type whose column names equal the
record's (necessarily distinct) field names in the same order, the named
mapping `from_row` and the positional mapping `from_columns` return the very
same result — in particular, whenever every value converts, they produce
identical records. -/
theorem from_row_eq_from_columns {α β : Type} (fields : List String)
    (conv : Nat → α → Option β) (row : Row α)
    (hmap : row.map Prod.fst = fields) (hnd : fields.Nodup) :
    from_row fields conv row = from_columns fields conv row :=
  from_row_go_eq_from_columns_go conv row fields hmap hnd fields 0 rfl

theorem from_row_eq_from_columns_witness :
    (([("id", "1"), ("name", "A")] : Row String).map Prod.fst = ["id", "name"]
        ∧ (["id", "name"] : List String).Nodup)
      ∧ from_row ["id", "name"] (fun _ v => some v) [("id", "1"), ("name", "A")]
          = from_columns ["id", "name"] (fun _ v => some v) [("id", "1"), ("name", "A")] :=
  ⟨⟨by decide, by decide⟩,
    from_row_eq_from_columns ["id", "name"] (fun _ v => some v)
      [("id", "1"), ("name", "A")] (by decide) (by decide)⟩

/-! ## `db_api.hpp` / `db_utils.hpp` — the CRUD facade -/

/-- `db::sql::utils::construct_select_all_query`:
`"SELECT * FROM " + kName + ";"` (assembled by `static_string`
concatenation, whose content is plain concatenation). -/
def construct_select_all_query (s : Schema) : String :=
  "SELECT * FROM " ++ s.kName ++ ";"

/-- `db::utils::extract_all_rows`: `std::ranges::transform` of the row
mapping over all result rows, preserving row order. -/
def extract_all_rows {R T : Type} (m : R → T) (result : List R) : List T :=
  result.map m

/-- `db::utils::as_set_of`: `std::nullopt` when the result set is empty,
otherwise the converted records. -/
def as_set_of {R T : Type} (m : R → T) (result : List R) : Option (List T) :=
  if result.isEmpty then none else some (extract_all_rows m result)

/-- `db::get_all_records`: synthesize select-all, execute it on the driver
(modelled by `db : String → List R`, statement text to result rows), and
convert via `as_set_of`. -/
def get_all_records {R T : Type} (m : R → T) (db : String → List R)
    (s : Schema) : Option (List T) :=
  as_set_of m (db (construct_select_all_query s))

/-- C6: `get_all_records` returns `none` (`std::nullopt`) iff the executed
select-all query yields zero rows; on `N > 0` rows it returns exactly the
`N` rows' records, in row order, each converted by the named row mapping
(stated for the mapping `from_row fields conv` of any record type). -/
theorem get_all_records_spec {α β : Type} (fields : List String)
    (conv : Nat → α → Option β) (db : String → List (Row α)) (s : Schema) :
    (get_all_records (from_row fields conv) db s = none
        ↔ db (construct_select_all_query s) = [])
      ∧ get_all_records (from_row fields conv) db s
          = if (db (construct_select_all_query s)).isEmpty then none
            else some ((db (construct_select_all_query s)).map (from_row fields conv)) := by
  rw [get_all_records, as_set_of, extract_all_rows]
  cases hrows : db (construct_select_all_query s) <;> simp

/-! ## `details/pfr_utils.hpp`, `details/unpack_fields_impl.hpp`,
`db::update_record` — parameter binding -/

/-- `db::utils::get_field_by_idx` (`boost::pfr::get<idx>`); a record value
is modelled by its declaration-ordered field-value list. -/
def get_field_by_idx {V : Type} (record : List V) (i : Fin record.length) : V :=
  record.get i

/-- `db::utils::unpack_fields`: invoke the callback with
`get_field_by_idx<0>(obj), …, get_field_by_idx<n-1>(obj)` — the full
field-value tuple in declaration order. -/
def unpack_fields {V : Type} (record : List V) : List V :=
  List.ofFn (fun i : Fin record.length => get_field_by_idx record i)

/-- `db::utils::get_field_idx_by_name`: index of the first field with the
given name, with the field count as not-found sentinel (`std::distance` to
the search's end). -/
def get_field_idx_by_name (fields : List String) (name : String) : Nat :=
  fields.findIdx (fun f => f = name)

/-- `db::utils::get_field_by_name` on a positionally modelled record
(`dflt` stands for the unreachable out-of-range case, which in C++ is a
compile-time error). -/
def get_field_by_name {V : Type} (s : Schema) (record : List V) (name : String)
    (dflt : V) : V :=
  record.getD (get_field_idx_by_name s.fields name) dflt

/-- `db::sql::utils::create_update_all_query`: the `static_string` holding
`update_query_all_str`'s text (assembled by the same two-pass protocol as
`create_update_query`). -/
def create_update_all_query (s : Schema) : String :=
  update_query_all_str s

/-- The `HasName Scheme` overload of `db::utils::exec_affected`: unrolls the
record with `unpack_fields` and binds the unrolled values as the statement's
parameters, in order — modelled as the (statement text, bound parameters)
pair handed to the driver. -/
def exec_affected_record {V : Type} (query : String) (record : List V) :
    String × List V :=
  (query, unpack_fields record)

/-- `db::update_record` (`db_api.hpp`): executes the generated update-all
statement with the record's unpacked field values as parameters `$1, $2, …`.
-/
def update_record {V : Type} (s : Schema) (record : List V) : String × List V :=
  exec_affected_record (create_update_all_query s) record

/-- The non-`"id"` field values of a record, in declaration order (the
values C1 expects as parameters `$2, $3, …`). -/
def nonIdValues {V : Type} (s : Schema) (record : List V) : List V :=
  ((s.fields.zip record).filter (fun p => p.1 ≠ "id")).map Prod.snd

theorem unpack_fields_eq {V : Type} (record : List V) :
    unpack_fields record = record := by
  rw [unpack_fields]
  exact List.ofFn_get record

/-- C1 fails as stated: for the scheme `{kName := "t", fields := [name, id]}`
(an `id` field that is not declared first) and the record with `name = "A"`,
`id = "7"`, `update_record` does not bind the record's id first — it binds
`["A", "7"]`, the declaration-ordered field values. -/
theorem update_record_id_binding_counterexample :
    (update_record ⟨"t", ["name", "id"]⟩ (["A", "7"] : List String)).2
      ≠ get_field_by_name ⟨"t", ["name", "id"]⟩ ["A", "7"] "id" ""
          :: nonIdValues ⟨"t", ["name", "id"]⟩ ["A", "7"] := by
  decide

/-- C1 (amended): `update_record` executes the generated update-all
statement binding all field values in declaration order; when the `"id"`
field is the first declared field (as in every scheme this library's tests
and examples define), this is exactly the record's id as parameter `$1`
followed by every non-id field value in declaration order as `$2, $3, …` —
matching the generated statement, whose SET clause assigns those same
non-id fields the indices `2, 3, …` in declaration order. -/
theorem update_record_id_binding (s : Schema) {V : Type} (record : List V)
    (d : V) (hfirst : s.fields.head? = some "id") (hnd : s.fields.Nodup)
    (hlen : record.length = s.fields.length) :
    (update_record s record).2
        = get_field_by_name s record "id" d :: nonIdValues s record
      ∧ (update_record s record).1
          = "UPDATE " ++ s.kName ++ " SET "
              ++ joinComma (assigns (s.fields.filter (fun f => f ≠ "id")) 0)
              ++ " WHERE id = $1;" := by
  obtain ⟨fs, rest, hfs⟩ : ∃ rest fs, s.fields = rest :: fs := by
    cases hsf : s.fields with
    | nil => rw [hsf] at hfirst; simp at hfirst
    | cons a l => exact ⟨a, l, rfl⟩
  have hrest : fs = "id" := by
    rw [hfs] at hfirst
    simpa using hfirst
  subst hrest
  obtain ⟨v, vs, hrec⟩ : ∃ v vs, record = v :: vs := by
    cases hr : record with
    | nil => rw [hr, hfs] at hlen; simp at hlen
    | cons v vs => exact ⟨v, vs, rfl⟩
  subst hrec
  rw [hfs] at hnd
  rw [List.nodup_cons] at hnd
  obtain ⟨hidnotin, hnd'⟩ := hnd
  constructor
  · rw [update_record, exec_affected_record]
    show unpack_fields (v :: vs) = _
    rw [unpack_fields_eq, get_field_by_name, get_field_idx_by_name, hfs]
    simp only [List.findIdx_cons, decide_True, cond_true, List.getD_cons_zero]
    rw [nonIdValues, hfs, List.zip_cons_cons,
      List.filter_cons_of_neg (by simp)]
    have hkeep : (rest.zip vs).filter (fun p => p.1 ≠ "id") = rest.zip vs := by
      rw [List.filter_eq_self]
      intro p hp
      have := (List.of_mem_zip hp).1
      simp only [ne_eq, decide_eq_true_eq]
      exact fun h => hidnotin (h ▸ this)
    rw [hkeep]
    have hvs : (rest.zip vs).map Prod.snd = vs := by
      apply List.map_snd_zip
      rw [hfs] at hlen
      simp at hlen
      omega
    rw [hvs]
  · show create_update_all_query s = _
    rw [create_update_all_query, update_query_all_str,
      setClauseSkipId_eq_filter,
      namesSizeAll_eq_filter_length s (by rw [hfs, List.nodup_cons]; exact ⟨hidnotin, hnd'⟩),
      setClause_eq_joinComma _ 0 _ (by omega)]

theorem update_record_id_binding_witness :
    ((⟨"users", ["id", "name"]⟩ : Schema).fields.head? = some "id"
        ∧ (⟨"users", ["id", "name"]⟩ : Schema).fields.Nodup
        ∧ (["1", "A"] : List String).length
            = (⟨"users", ["id", "name"]⟩ : Schema).fields.length)
      ∧ ((update_record ⟨"users", ["id", "name"]⟩ (["1", "A"] : List String)).2
            = get_field_by_name ⟨"users", ["id", "name"]⟩ ["1", "A"] "id" ""
                :: nonIdValues ⟨"users", ["id", "name"]⟩ ["1", "A"]
          ∧ (update_record ⟨"users", ["id", "name"]⟩ (["1", "A"] : List String)).1
              = "UPDATE " ++ "users" ++ " SET "
                  ++ joinComma (assigns ((⟨"users", ["id", "name"]⟩ : Schema).fields.filter
                        (fun f => f ≠ "id")) 0)
                  ++ " WHERE id = $1;") :=
  ⟨⟨by decide, by decide, by decide⟩,
    update_record_id_binding ⟨"users", ["id", "name"]⟩ ["1", "A"] ""
      (by decide) (by decide) (by decide)⟩

end DbWrap
